import Mathlib

/-
Shallow embedding of the bytesip news-curation core, translated from the
Python sources:

  * src/infrastructure/lambda/bytesip_news_fetcher/models.py
  * src/infrastructure/lambda/bytesip_news_fetcher/cache_manager.py
  * src/infrastructure/lambda/bytesip_news_fetcher/news_fetcher.py
  * src/agent/bytesip_agent/memory.py
  * src/agent/bytesip_agent/agent.py

Conventions of the embedding:

  * The DynamoDB table is a list of rows; `put_item` upserts by (PK, SK) and
    `query` enumerates rows in insertion order (none of the verified
    properties depend on DynamoDB's SK-sorted enumeration order).
  * Unix timestamps are natural numbers, injected as a `now` parameter where
    the Python code calls `time.time()`.
  * The thread pool of `NewsFetcher.fetch` is modelled as a sequential fold
    over the submitted sources.  Distinct sources touch disjoint cache keys,
    so the sequential threading is a linearization of the concurrent runs;
    the aggregation order of `as_completed` is one of the possible
    completion orders.
  * A Python `set` of strings iterates in an unspecified (hash-randomized)
    order.  `list(existing)` in `record_proposed_ids` is therefore modelled
    by an explicit enumeration function `SetEnum` together with the
    faithfulness condition `ValidSetEnum` (the enumeration is a permutation
    of the distinct elements).
-/

/-! ## models.py -/

/-- `SourceType = Literal["qiita", "zenn", "github"]`. -/
inductive SourceType
  | qiita
  | zenn
  | github
  deriving DecidableEq

/-- The string literal a `SourceType` stands for. -/
def SourceType.str : SourceType → String
  | .qiita => "qiita"
  | .zenn => "zenn"
  | .github => "github"

/-- `generate_news_id(source, original_id)`: returns `f"{source}_{original_id}"`. -/
def generate_news_id (source : SourceType) (originalId : String) : String :=
  source.str ++ "_" ++ originalId

/-- `ErrorType = Literal["connection_error", "rate_limit", "parse_error"]`. -/
inductive ErrorType
  | connection_error
  | rate_limit
  | parse_error
  deriving DecidableEq

/-- `NewsItem` dataclass. -/
structure NewsItem where
  id : String
  title : String
  url : String
  summary : String
  tags : List String
  source : SourceType
  deriving DecidableEq

/-- `SourceError`: the typed failure raised by handlers and collected per call. -/
structure SourceError where
  source : SourceType
  errorType : ErrorType
  message : String
  deriving DecidableEq

/-- `FetchNewsResponse` dataclass: `errors` is `None` when every source succeeded. -/
structure FetchNewsResponse where
  items : List NewsItem
  errors : Option (List SourceError)
  deriving DecidableEq

/-! ## cache_manager.py (and the constants it imports from config.py) -/

/-- `CACHE_TTL_SECONDS = 86400` (24 hours). -/
def CACHE_TTL_SECONDS : Nat := 86400

/-- `MAX_ITEMS_PER_SOURCE = 30`. -/
def MAX_ITEMS_PER_SOURCE : Nat := 30

/-- One DynamoDB row as written by `CacheManager.set`: the partition key,
the sort key, the six `NewsItem` attributes (kept bundled as `item`; `get`
reads exactly these six attributes back), and the `ttl` attribute. -/
structure CacheRow where
  pk : String
  sk : String
  item : NewsItem
  ttl : Nat
  deriving DecidableEq

/-- The DynamoDB table backing the cache, in row-insertion order. -/
abbrev Table := List CacheRow

/-- `f"{DYNAMODB_PK_PREFIX}{source}"` with `DYNAMODB_PK_PREFIX = "SOURCE#"`. -/
def pkOf (source : SourceType) : String := "SOURCE#" ++ source.str

/-- `f"{DYNAMODB_SK_ITEM_PREFIX}{item.id}"` with `DYNAMODB_SK_ITEM_PREFIX = "ITEM#"`. -/
def skOf (it : NewsItem) : String := "ITEM#" ++ it.id

/-- DynamoDB `put_item`: upsert by full primary key (PK, SK). -/
def putItem (t : Table) (r : CacheRow) : Table :=
  if t.any (fun x => x.pk == r.pk && x.sk == r.sk) then
    t.map (fun x => if x.pk == r.pk && x.sk == r.sk then r else x)
  else
    t ++ [r]

/-- The `begins_with(SK, "ITEM#")` key condition of the cache queries. -/
def isItemRow (r : CacheRow) : Bool := "ITEM#".data.isPrefixOf r.sk.data

/-- `CacheManager.get(source)`: query the source's partition, return `None`
when no rows exist, otherwise keep the rows with `ttl > current_time`,
rebuild the `NewsItem`s, and return `None` when none survived. -/
def CacheManager.get (t : Table) (now : Nat) (source : SourceType) :
    Option (List NewsItem) :=
  let pk := pkOf source
  let items := t.filter (fun r => r.pk == pk && isItemRow r)
  if items.isEmpty then none
  else
    let valid := (items.filter (fun r => now < r.ttl)).map (fun r => r.item)
    if valid.isEmpty then none else some valid

/-- `CacheManager.set(source, items)`: stamp `ttl = now + CACHE_TTL_SECONDS`,
keep the first `MAX_ITEMS_PER_SOURCE` items, and `put_item` each one. -/
def CacheManager.set (t : Table) (now : Nat) (source : SourceType)
    (items : List NewsItem) : Table :=
  let ttl := now + CACHE_TTL_SECONDS
  (items.take MAX_ITEMS_PER_SOURCE).foldl
    (fun acc it => putItem acc { pk := pkOf source, sk := skOf it, item := it, ttl := ttl })
    t

/-- Well-formedness the cache writer maintains: every row's SK is
`"ITEM#" + id` of the item stored in the row. -/
def TableWF (t : Table) : Prop := ∀ r ∈ t, r.sk = skOf r.item

/-- The rows of one source's partition (all operations of the cache are
keyed by the partition). -/
def rowsFor (t : Table) (s : SourceType) : Table :=
  t.filter (fun r => r.pk == pkOf s)

/-! ## news_fetcher.py -/

instance {ε α : Type} [DecidableEq ε] [DecidableEq α] : DecidableEq (Except ε α)
  | .ok a, .ok b =>
    match decEq a b with
    | isTrue h => isTrue (by rw [h])
    | isFalse h => isFalse (fun hh => h (by cases hh; rfl))
  | .ok _, .error _ => isFalse (fun hh => by cases hh)
  | .error _, .ok _ => isFalse (fun hh => by cases hh)
  | .error e, .error f =>
    match decEq e f with
    | isTrue h => isTrue (by rw [h])
    | isFalse h => isFalse (fun hh => h (by cases hh; rfl))

/-- A source handler's `fetch(tags)`: returns items or raises `SourceError`. -/
abbrev Handler := Option (List String) → Except SourceError (List NewsItem)

/-- The `handlers` dict, in key-insertion order. -/
abbrev Handlers := List (SourceType × Handler)

/-- `self._handlers[source]` lookup (`None` when the key is absent). -/
def lookupHandler (hs : Handlers) (s : SourceType) : Option Handler :=
  (hs.find? (fun p => p.1 == s)).map (fun p => p.2)

/-- `NewsFetcher._fetch_source`: cache-first unless `force_refresh`; on a
cache miss call the handler and write the result through to the cache.
Returns the outcome, the table after the call, and whether the handler was
invoked. -/
def NewsFetcher.fetchSource (h : Handler) (t : Table) (now : Nat)
    (source : SourceType) (tags : Option (List String)) (forceRefresh : Bool) :
    Except SourceError (List NewsItem) × Table × Bool :=
  if forceRefresh = false then
    match CacheManager.get t now source with
    | some cached => (.ok cached, t, false)
    | none =>
      match h tags with
      | .ok items => (.ok items, CacheManager.set t now source items, true)
      | .error e => (.error e, t, true)
  else
    match h tags with
    | .ok items => (.ok items, CacheManager.set t now source items, true)
    | .error e => (.error e, t, true)

/-- `target_sources = sources or list(self._handlers.keys())`: Python's `or`
treats both `None` and the empty list as falsy, so an explicitly empty
`sources` list also resolves to all registered handlers. -/
def resolveTargets (hs : Handlers) (sources : Option (List SourceType)) :
    List SourceType :=
  match sources with
  | none => hs.map (fun p => p.1)
  | some [] => hs.map (fun p => p.1)
  | some ss => ss

/-- The pool of futures of `NewsFetcher.fetch`: one `_fetch_source` unit per
target source that has a registered handler.  Returns the per-source
outcomes, the final table, and the sources whose handler was invoked. -/
def runSources (hs : Handlers) (targets : List SourceType) (t : Table)
    (now : Nat) (tags : Option (List String)) (forceRefresh : Bool) :
    List (SourceType × Except SourceError (List NewsItem)) × Table × List SourceType :=
  match targets with
  | [] => ([], t, [])
  | s :: rest =>
    match lookupHandler hs s with
    | none => runSources hs rest t now tags forceRefresh
    | some h =>
      let step := NewsFetcher.fetchSource h t now s tags forceRefresh
      let restRun := runSources hs rest step.2.1 now tags forceRefresh
      ((s, step.1) :: restRun.1, restRun.2.1,
        (if step.2.2 then [s] else []) ++ restRun.2.2)

/-- `NewsFetcher.fetch`: resolve targets, run every submitted source, extend
`all_items` with each successful result, append each `SourceError` to
`all_errors`, and return `errors = None` when no source failed.  Also
returns the final table and the handler-invocation log of the run. -/
def NewsFetcher.fetch (hs : Handlers) (t : Table) (now : Nat)
    (sources : Option (List SourceType)) (tags : Option (List String))
    (forceRefresh : Bool) :
    FetchNewsResponse × Table × List SourceType :=
  let run := runSources hs (resolveTargets hs sources) t now tags forceRefresh
  let allItems := run.1.foldl
    (fun acc p => match p.2 with | .ok its => acc ++ its | .error _ => acc) []
  let allErrors := run.1.foldl
    (fun acc p => match p.2 with | .ok _ => acc | .error e => acc ++ [e]) []
  ({ items := allItems,
     errors := if allErrors.isEmpty then none else some allErrors },
   run.2.1, run.2.2)

/-- The per-source outcomes of one `NewsFetcher.fetch` call: what the
submitted futures produce. -/
def fetchResults (hs : Handlers) (t : Table) (now : Nat)
    (sources : Option (List SourceType)) (tags : Option (List String))
    (forceRefresh : Bool) :
    List (SourceType × Except SourceError (List NewsItem)) :=
  (runSources hs (resolveTargets hs sources) t now tags forceRefresh).1

/-- Whether a per-source outcome is a failure. -/
def isErrorResult (r : Except SourceError (List NewsItem)) : Bool :=
  match r with
  | .ok _ => false
  | .error _ => true

/-! ## memory.py -/

/-- Enumeration order of a Python `set` of strings, as used by
`list(existing)`: unspecified (hash-randomized), hence a parameter. -/
abbrev SetEnum := List String → List String

/-- Faithfulness of a `SetEnum`: `list(set(xs))` is some permutation of the
distinct elements of `xs`. -/
def ValidSetEnum (enum : SetEnum) : Prop := ∀ xs, (enum xs).Perm xs.dedup

/-- One concrete admissible set-enumeration order (first-occurrence order);
used in closed statements whose truth does not depend on the order. -/
def pySetList : SetEnum := fun xs => xs.dedup

/-- `ProposedIdsManager.filter_unproposed(ids)`: keep the ids not in the
stored `proposed_ids` list (membership in `set(stored)` = membership in
`stored`), preserving input order. -/
def ProposedIdsManager.filter_unproposed (stored ids : List String) : List String :=
  ids.filter (fun i => !(stored.contains i))

/-- `ProposedIdsManager.record_proposed_ids(ids)`:
`existing = set(stored)`, `new_ids = [id for id in ids if id not in existing]`,
store `list(existing) + new_ids`.  `list(existing)` is `enum stored`. -/
def ProposedIdsManager.record_proposed_ids (enum : SetEnum)
    (stored ids : List String) : List String :=
  let newIds := ids.filter (fun i => !(stored.contains i))
  enum stored ++ newIds

/-! ## agent.py -/

/-- `DEFAULT_LIMIT = 10`. -/
def DEFAULT_LIMIT : Nat := 10

/-- `MAX_PER_SOURCE = 10`. -/
def MAX_PER_SOURCE : Nat := 10

/-- `MAX_TOTAL = 30`. -/
def MAX_TOTAL : Nat := 30

/-- `NewsResponse` dataclass (agent level). -/
structure NewsResponse where
  items : List NewsItem
  has_more : Bool
  deriving DecidableEq

/-- `items_by_source[s]` of the `defaultdict(list)` (default `[]`). -/
def groupOf (m : List (SourceType × List NewsItem)) (s : SourceType) :
    List NewsItem :=
  ((m.find? (fun p => p.1 == s)).map (fun p => p.2)).getD []

/-- `items_by_source[s].append(it)`: extend the group in place, creating the
key at the end of the key-insertion order when absent. -/
def appendToGroup (m : List (SourceType × List NewsItem)) (s : SourceType)
    (it : NewsItem) : List (SourceType × List NewsItem) :=
  if m.any (fun p => p.1 == s) then
    m.map (fun p => if p.1 == s then (p.1, p.2 ++ [it]) else p)
  else
    m ++ [(s, [it])]

/-- The loop body of the per-source cap: append the item only while its
source's group holds fewer than `MAX_PER_SOURCE` items. -/
def addCapped (m : List (SourceType × List NewsItem)) (it : NewsItem) :
    List (SourceType × List NewsItem) :=
  if (groupOf m it.source).length < MAX_PER_SOURCE then
    appendToGroup m it.source it
  else m

/-- `items_by_source` after the capping loop over `unproposed_items`. -/
def itemsBySource (items : List NewsItem) : List (SourceType × List NewsItem) :=
  items.foldl addCapped []

/-- `original_order = {item.id: i for i, item in enumerate(unproposed_items)}`
with `.get(key, 0)`: the dict maps an id to the index of its last
occurrence, and absent keys default to 0. -/
def origOrder (items : List NewsItem) : String → Nat :=
  items.enum.foldl (fun f p => fun key => if key == p.2.id then p.1 else f key)
    (fun _ => 0)

/-- Insert an element into a run of already-placed elements, after every
element `h` with `le h x` (ties keep the earlier element first). -/
def insSorted (le : α → α → Bool) : List α → α → List α
  | [], x => [x]
  | h :: tl, x => if le h x then h :: insSorted le tl x else x :: h :: tl

/-- Stable sort by a boolean `le` (total preorders only, which is how it is
used here).  `list.sort` in Python is stable, and a stable sort's output is
uniquely determined by `le`, so this insertion sort computes exactly what
`limited_items.sort(key=...)` computes. -/
def sortStable (le : α → α → Bool) (xs : List α) : List α :=
  xs.foldl (insSorted le) []

/-- Python's `xs[:k]` for an `int` k: a negative stop counts from the end. -/
def pySliceTo (xs : List α) (k : Int) : List α :=
  if k < 0 then xs.take ((xs.length : Int) + k).toNat else xs.take k.toNat

/-- Steps 1-2 of `get_news`: `unproposed_ids =
set(filter_unproposed(all_ids))`, then keep the items whose id is in it. -/
def unproposedItemsOf (stored : List String) (allItems : List NewsItem) :
    List NewsItem :=
  let unproposedIds :=
    ProposedIdsManager.filter_unproposed stored (allItems.map (fun it => it.id))
  allItems.filter (fun it => unproposedIds.contains it.id)

/-- `limited_items`: the capped groups flattened in key-insertion order. -/
def limitedItemsOf (items : List NewsItem) : List NewsItem :=
  ((itemsBySource items).map (fun p => p.2)).flatten

/-- `limited_items.sort(key=lambda x: original_order.get(x.id, 0))`. -/
def sortedItemsOf (items : List NewsItem) : List NewsItem :=
  sortStable (fun a b => decide (origOrder items a.id ≤ origOrder items b.id))
    (limitedItemsOf items)

/-- `total_available = sum(min(len(items), MAX_PER_SOURCE) for items in
items_by_source.values())`. -/
def totalAvailableOf (items : List NewsItem) : Nat :=
  ((itemsBySource items).map (fun p => min p.2.length MAX_PER_SOURCE)).sum

/-- `ByteSipAgent.get_news` on an already-fetched item list: dedup against
session memory, cap per source, restore original order, apply
`min(limit, MAX_TOTAL)` as a Python slice, compute `has_more`, and record
the returned ids (only when any item is returned).  Returns the response
and the session's stored id list after the call. -/
def ByteSipAgent.get_news (enum : SetEnum) (fetched : List NewsItem)
    (stored : List String) (limit : Int) : NewsResponse × List String :=
  let unproposedItems := unproposedItemsOf stored fetched
  let sortedItems := sortedItemsOf unproposedItems
  let effectiveLimit : Int := min limit (MAX_TOTAL : Int)
  let finalItems := pySliceTo sortedItems effectiveLimit
  let hasMore := decide (finalItems.length < totalAvailableOf unproposedItems)
  let stored' :=
    if finalItems.isEmpty then stored
    else ProposedIdsManager.record_proposed_ids enum stored
      (finalItems.map (fun it => it.id))
  ({ items := finalItems, has_more := hasMore }, stored')

/-- One `get_news` call's arguments. -/
structure AgentCall where
  sources : Option (List SourceType)
  tags : Option (List String)
  limit : Int

/-- A sequence of `get_news` calls in one session over a fixed fetch
boundary `fetchFunc`: returns each call's returned items and the final
session memory. -/
def runGetNews (enum : SetEnum)
    (fetchFunc : Option (List SourceType) → Option (List String) → List NewsItem) :
    List AgentCall → List String → List (List NewsItem) × List String
  | [], stored => ([], stored)
  | c :: rest, stored =>
    let step := ByteSipAgent.get_news enum (fetchFunc c.sources c.tags) stored c.limit
    let restRun := runGetNews enum fetchFunc rest step.2
    (step.1.items :: restRun.1, restRun.2)

/-! ## Definitions following the spec's words (for comparison only) -/

/-- Python's `str.lower()` on the characters of a string. -/
def pyLower (s : String) : String := ⟨s.data.map Char.toLower⟩

/-- Modelled from the spec's words: an item matches a tag query when one of
its tags equals one of the query tags case-insensitively. -/
def specTagMatch (tags : List String) (it : NewsItem) : Bool :=
  it.tags.any (fun t => tags.any (fun q => pyLower t == pyLower q))

/-- Modelled from the spec's words: the resolved target source set is the
explicit `sources` list (including the empty list) intersected with the
registered handlers; all registered sources when `sources` is absent. -/
def specResolveTargets (hs : Handlers) (sources : Option (List SourceType)) :
    List SourceType :=
  match sources with
  | none => hs.map (fun p => p.1)
  | some ss => ss.filter (fun s => (lookupHandler hs s).isSome)

/-- The number of items a per-source cap of `MAX_PER_SOURCE` leaves from a
list: summed over the distinct sources occurring in the list, the smaller
of that source's multiplicity and the cap. -/
def perSourceCapTotal (items : List NewsItem) : Nat :=
  (((items.map (fun it => it.source)).dedup).map
    (fun s => min (items.countP (fun it => it.source == s)) MAX_PER_SOURCE)).sum

/-! ## Concrete fixtures for closed statements -/

/-- Cached article tagged python/django (mirrors the repo's own fetcher test
data). -/
def exPyDjango : NewsItem :=
  { id := "qiita_1", title := "Test Article 1", url := "https://example.com/1",
    summary := "Test summary", tags := ["python", "django"], source := .qiita }

/-- Cached article tagged rust/wasm. -/
def exRustWasm : NewsItem :=
  { id := "qiita_2", title := "Test Article 2", url := "https://example.com/2",
    summary := "Test summary", tags := ["rust", "wasm"], source := .qiita }

/-- Cached article tagged python/fastapi. -/
def exPyFastapi : NewsItem :=
  { id := "qiita_3", title := "Test Article 3", url := "https://example.com/3",
    summary := "Test summary", tags := ["python", "fastapi"], source := .qiita }

/-- Handlers for the tag-filter scenario: a qiita handler that would return
nothing fresh (it is not supposed to be reached on a cache hit). -/
def hsTag : Handlers := [(.qiita, fun _ => Except.ok [])]

/-- Cache table holding the three example articles for qiita, written at
time 0. -/
def tTag : Table := CacheManager.set [] 0 .qiita [exPyDjango, exRustWasm, exPyFastapi]

/-- A successful qiita item for the partial-failure scenario. -/
def exOkItem : NewsItem :=
  { id := "qiita_ok", title := "Ok", url := "https://example.com/ok",
    summary := "s", tags := ["python"], source := .qiita }

/-- The zenn failure for the partial-failure scenario. -/
def exErr : SourceError :=
  { source := .zenn, errorType := .rate_limit, message := "Rate limit exceeded" }

/-- Handlers where qiita succeeds and zenn raises. -/
def hsMixed : Handlers :=
  [(.qiita, fun _ => Except.ok [exOkItem]), (.zenn, fun _ => Except.error exErr)]

/-- First qiita item for the agent fixtures. -/
def exA : NewsItem :=
  { id := "qiita_a", title := "A", url := "https://example.com/a",
    summary := "s", tags := [], source := .qiita }

/-- Second qiita item for the agent fixtures. -/
def exB : NewsItem :=
  { id := "qiita_b", title := "B", url := "https://example.com/b",
    summary := "s", tags := [], source := .qiita }

/-- A github item cached for the cache-hit scenario. -/
def exGh : NewsItem :=
  { id := "github_owner/repo", title := "Repo", url := "https://github.com/owner/repo",
    summary := "s", tags := ["rust"], source := .github }

/-- Table holding the cached github item, written at time 0. -/
def tGh : Table := CacheManager.set [] 0 .github [exGh]

/-- A github handler that must not be reached on a cache hit. -/
def hsGh : Handlers := [(.github, fun _ => Except.ok [])]

/-- A zenn item served by the handler in the empty-sources scenario. -/
def exZn : NewsItem :=
  { id := "zenn_slug", title := "Z", url := "https://zenn.dev/slug",
    summary := "s", tags := [], source := .zenn }

/-- A zenn handler returning one item. -/
def hsZn : Handlers := [(.zenn, fun _ => Except.ok [exZn])]

/-- Table holding the cached zenn item, written at time 0 (for the
set-empty-list scenario). -/
def tZn : Table := CacheManager.set [] 0 .zenn [exZn]

/-! ## Helper lemmas -/

theorem strData_inj {a b : String} (h : a.data = b.data) : a = b := by
  cases a; cases b; exact congrArg String.mk h

theorem str_append_cancel {p o1 o2 : String} (h : p ++ o1 = p ++ o2) : o1 = o2 := by
  have hd := congrArg String.data h
  rw [String.data_append, String.data_append] at hd
  exact strData_inj (List.append_cancel_left hd)

theorem append_ne_of_head (a b o1 o2 : String) (c1 c2 : Char) (r1 r2 : List Char)
    (h1 : a.data = c1 :: r1) (h2 : b.data = c2 :: r2) (hne : c1 ≠ c2) :
    a ++ o1 ≠ b ++ o2 := by
  intro h
  have hd := congrArg String.data h
  rw [String.data_append, String.data_append, h1, h2, List.cons_append,
    List.cons_append] at hd
  injection hd with hc _
  exact hne hc

/-! ## Claims -/

/-- C8: `generate_news_id` is a pure function and, over the source
enumeration qiita/zenn/github, distinct `(source, original_id)` pairs yield
distinct ids: the generated ids agree exactly when the inputs agree. -/
theorem C8_generate_news_id_inj (s1 s2 : SourceType) (o1 o2 : String) :
    generate_news_id s1 o1 = generate_news_id s2 o2 ↔ s1 = s2 ∧ o1 = o2 := by
  constructor
  · intro h
    cases s1 <;> cases s2
    case qiita.qiita => exact ⟨rfl, str_append_cancel h⟩
    case zenn.zenn => exact ⟨rfl, str_append_cancel h⟩
    case github.github => exact ⟨rfl, str_append_cancel h⟩
    case qiita.zenn =>
      exact absurd h (append_ne_of_head _ _ o1 o2 'q' 'z' _ _ rfl rfl (by decide))
    case qiita.github =>
      exact absurd h (append_ne_of_head _ _ o1 o2 'q' 'g' _ _ rfl rfl (by decide))
    case zenn.qiita =>
      exact absurd h (append_ne_of_head _ _ o1 o2 'z' 'q' _ _ rfl rfl (by decide))
    case zenn.github =>
      exact absurd h (append_ne_of_head _ _ o1 o2 'z' 'g' _ _ rfl rfl (by decide))
    case github.qiita =>
      exact absurd h (append_ne_of_head _ _ o1 o2 'g' 'q' _ _ rfl rfl (by decide))
    case github.zenn =>
      exact absurd h (append_ne_of_head _ _ o1 o2 'g' 'z' _ _ rfl rfl (by decide))
  · rintro ⟨rfl, rfl⟩
    rfl

/-- Witness for C8 at concrete inputs: same inputs reproduce the same id,
and a differing source or differing original id changes the id. -/
theorem C8_generate_news_id_inj_witness :
    generate_news_id .qiita "abc" = generate_news_id .qiita "abc" ∧
      generate_news_id .qiita "abc" ≠ generate_news_id .zenn "abc" ∧
      generate_news_id .qiita "abc" ≠ generate_news_id .qiita "abd" := by
  refine ⟨rfl, fun h => ?_, fun h => ?_⟩
  · have := (C8_generate_news_id_inj .qiita .zenn "abc" "abc").mp h
    exact absurd this.1 (by decide)
  · have := (C8_generate_news_id_inj .qiita .qiita "abc" "abd").mp h
    exact absurd this.2 (by decide)

/-- C1 (code bug): with the qiita partition caching three items tagged
python/django, rust/wasm and python/fastapi, a `fetch` for qiita with
`tags=["python"]` and `force_refresh=False` is served from the cache and
returns all three items, including the rust/wasm one, which matches no
requested tag case-insensitively.  The repository's own tests
(`test_filters_cached_items_by_tags`, `test_tag_filter_is_case_insensitive`)
require the cache-served items to be tag-filtered down to the matching ones,
so the orchestrator's missing re-filter contradicts them. -/
theorem C1_cache_hit_skips_tag_filter :
    (NewsFetcher.fetch hsTag tTag 10 (some [.qiita]) (some ["python"]) false).1.items
        = [exPyDjango, exRustWasm, exPyFastapi] ∧
      specTagMatch ["python"] exRustWasm = false ∧
      CacheManager.get tTag 10 .qiita = some [exPyDjango, exRustWasm, exPyFastapi] := by
  refine ⟨by decide, by decide, by decide⟩

/-- C3 counterexample: with two available unproposed items and
`limit = -1 ≤ 0`, `get_news` returns one item, not zero: the slice
`limited_items[:min(-1, 30)]` drops one element from the end instead of
returning nothing. -/
theorem C3_negative_limit_counterexample :
    (ByteSipAgent.get_news pySetList [exA, exB] [] (-1)).1.items = [exA] := by
  decide

/-- C7 counterexample: an explicitly empty `sources` list does not produce
an empty result.  Under the claim's resolution rule the target set is empty
(`specResolveTargets` yields `[]`), but `sources or list(handlers)` treats
`[]` as falsy, so the call fans out to all registered handlers and returns
the zenn handler's item. -/
theorem C7_empty_sources_counterexample :
    specResolveTargets hsZn (some []) = [] ∧
      (NewsFetcher.fetch hsZn [] 0 (some []) none false).1.items = [exZn] ∧
      (NewsFetcher.fetch hsZn [] 0 (some []) none false).2.2 = [.zenn] := by
  refine ⟨by decide, by decide, by decide⟩

/-- C9 counterexample: one `record_proposed_ids` call whose input list
repeats an id stores the id twice, violating set-union/no-duplicate
semantics.  The stored list is empty before the call, so `list(existing)`
is `[]` under every admissible set-enumeration order and the choice of
`pySetList` is immaterial. -/
theorem C9_duplicate_ids_counterexample :
    (ProposedIdsManager.record_proposed_ids pySetList [] ["a", "a"]).count "a" = 2 := by
  decide

/-- C10 counterexample: `set(source, [])` writes nothing, so it does not
erase the previously cached unexpired zenn row; a later `get` still serves
that row rather than reporting absence. -/
theorem C10_set_empty_counterexample :
    CacheManager.set tZn 5 .zenn [] = tZn ∧
      CacheManager.get (CacheManager.set tZn 5 .zenn []) 10 .zenn = some [exZn] := by
  refine ⟨by decide, by decide⟩

/-! ### Aggregation lemmas for `NewsFetcher.fetch` -/

theorem containsStr_iff (l : List String) (a : String) :
    l.contains a = true ↔ a ∈ l := by
  simp [List.contains]

theorem fetchItems_fold
    (R : List (SourceType × Except SourceError (List NewsItem))) :
    ∀ acc : List NewsItem,
      R.foldl (fun acc p => match p.2 with | .ok its => acc ++ its | .error _ => acc) acc
        = acc ++ (R.filterMap
            (fun p => match p.2 with | .ok its => some its | .error _ => none)).flatten := by
  induction R with
  | nil => intro acc; simp
  | cons p R ih =>
    intro acc
    obtain ⟨s, r⟩ := p
    cases r with
    | ok its => simp [List.foldl_cons, ih, List.append_assoc]
    | error e => simp [List.foldl_cons, ih]

theorem fetchErrors_fold
    (R : List (SourceType × Except SourceError (List NewsItem))) :
    ∀ acc : List SourceError,
      R.foldl (fun acc p => match p.2 with | .ok _ => acc | .error e => acc ++ [e]) acc
        = acc ++ R.filterMap
            (fun p => match p.2 with | .ok _ => none | .error e => some e) := by
  induction R with
  | nil => intro acc; simp
  | cons p R ih =>
    intro acc
    obtain ⟨s, r⟩ := p
    cases r with
    | ok its => simp [List.foldl_cons, ih]
    | error e => simp [List.foldl_cons, ih, List.append_assoc]

theorem fetch_items_eq (hs : Handlers) (t : Table) (now : Nat)
    (sources : Option (List SourceType)) (tags : Option (List String)) (fr : Bool) :
    (NewsFetcher.fetch hs t now sources tags fr).1.items
      = ((fetchResults hs t now sources tags fr).filterMap
          (fun p => match p.2 with | .ok its => some its | .error _ => none)).flatten := by
  unfold NewsFetcher.fetch fetchResults
  simp [fetchItems_fold]

theorem fetch_errors_eq (hs : Handlers) (t : Table) (now : Nat)
    (sources : Option (List SourceType)) (tags : Option (List String)) (fr : Bool) :
    (NewsFetcher.fetch hs t now sources tags fr).1.errors.getD []
      = (fetchResults hs t now sources tags fr).filterMap
          (fun p => match p.2 with | .ok _ => none | .error e => some e) := by
  unfold NewsFetcher.fetch fetchResults
  simp only [fetchErrors_fold, List.nil_append]
  by_cases hemp :
      ((runSources hs (resolveTargets hs sources) t now tags fr).1.filterMap
        (fun p => match p.2 with | .ok _ => none | .error e => some e)).isEmpty = true
  · simp [hemp, List.isEmpty_iff.mp hemp]
  · simp [hemp]

theorem filterMap_err_length
    (R : List (SourceType × Except SourceError (List NewsItem))) :
    (R.filterMap (fun p => match p.2 with | .ok _ => none | .error e => some e)).length
      = R.countP (fun p => isErrorResult p.2) := by
  induction R with
  | nil => rfl
  | cons p R ih =>
    obtain ⟨s, r⟩ := p
    cases r with
    | ok its => simpa [isErrorResult, List.countP_cons] using ih
    | error e => simpa [isErrorResult, List.countP_cons] using ih

/-- C2: failures are isolated per source.  Every item of every non-failing
submitted source is in the response's items; every failing source
contributes exactly one `SourceError` to the errors list (the list's length
is the number of failing sources); and when every submitted source fails,
the items are empty and the errors list holds one entry per source. -/
theorem C2_partial_failure_isolation (hs : Handlers) (t : Table) (now : Nat)
    (sources : Option (List SourceType)) (tags : Option (List String)) (fr : Bool) :
    (∀ s its, (s, Except.ok its) ∈ fetchResults hs t now sources tags fr →
      ∀ it ∈ its, it ∈ (NewsFetcher.fetch hs t now sources tags fr).1.items) ∧
    (∀ s e, (s, Except.error e) ∈ fetchResults hs t now sources tags fr →
      e ∈ (NewsFetcher.fetch hs t now sources tags fr).1.errors.getD []) ∧
    ((NewsFetcher.fetch hs t now sources tags fr).1.errors.getD []).length
      = (fetchResults hs t now sources tags fr).countP (fun p => isErrorResult p.2) ∧
    ((∀ p ∈ fetchResults hs t now sources tags fr, isErrorResult p.2 = true) →
      (NewsFetcher.fetch hs t now sources tags fr).1.items = [] ∧
        ((NewsFetcher.fetch hs t now sources tags fr).1.errors.getD []).length
          = (fetchResults hs t now sources tags fr).length) := by
  refine ⟨?_, ?_, ?_, ?_⟩
  · intro s its hmem it hit
    rw [fetch_items_eq]
    refine List.mem_flatten.mpr ⟨its, ?_, hit⟩
    exact List.mem_filterMap.mpr ⟨(s, Except.ok its), hmem, rfl⟩
  · intro s e hmem
    rw [fetch_errors_eq]
    exact List.mem_filterMap.mpr ⟨(s, Except.error e), hmem, rfl⟩
  · rw [fetch_errors_eq, filterMap_err_length]
  · intro hall
    constructor
    · rw [fetch_items_eq]
      have : (fetchResults hs t now sources tags fr).filterMap
          (fun p => match p.2 with | .ok its => some its | .error _ => none) = [] := by
        rw [List.filterMap_eq_nil_iff]
        intro p hp
        have := hall p hp
        revert this
        obtain ⟨s, r⟩ := p
        cases r <;> simp [isErrorResult]
      rw [this]
      rfl
    · rw [fetch_errors_eq, filterMap_err_length]
      rw [List.countP_eq_length]
      exact hall

/-- Witness for C2 on a two-source run where qiita succeeds and zenn raises
a rate limit: the successful item is returned and the error collected. -/
theorem C2_partial_failure_isolation_witness :
    exOkItem ∈ (NewsFetcher.fetch hsMixed [] 0 (some [.qiita, .zenn]) none false).1.items ∧
      exErr ∈ (NewsFetcher.fetch hsMixed [] 0 (some [.qiita, .zenn]) none false).1.errors.getD [] :=
  ⟨(C2_partial_failure_isolation hsMixed [] 0 (some [.qiita, .zenn]) none false).1
      .qiita [exOkItem] (by decide) exOkItem (by decide),
    (C2_partial_failure_isolation hsMixed [] 0 (some [.qiita, .zenn]) none false).2.1
      .zenn exErr (by decide)⟩

/-- C7 (amended): when no resolved target source has a registered handler,
`fetch` returns empty items and no errors, touches no cache row, and
invokes no handler. -/
theorem C7_unreachable_targets_empty_result (hs : Handlers) (t : Table) (now : Nat)
    (sources : Option (List SourceType)) (tags : Option (List String)) (fr : Bool)
    (h : ∀ s ∈ resolveTargets hs sources, (lookupHandler hs s).isNone = true) :
    (NewsFetcher.fetch hs t now sources tags fr).1 = ⟨[], none⟩ ∧
      (NewsFetcher.fetch hs t now sources tags fr).2.1 = t ∧
      (NewsFetcher.fetch hs t now sources tags fr).2.2 = [] := by
  have key : ∀ targets, (∀ s ∈ targets, (lookupHandler hs s).isNone = true) →
      runSources hs targets t now tags fr = ([], t, []) := by
    intro targets
    induction targets with
    | nil => intro _; rfl
    | cons s rest ih =>
      intro hall
      have hs0 : lookupHandler hs s = none :=
        Option.isNone_iff_eq_none.mp (hall s (by simp))
      rw [runSources, hs0]
      exact ih (fun x hx => hall x (by simp [hx]))
  refine ⟨?_, ?_, ?_⟩ <;> simp [NewsFetcher.fetch, key _ h]

/-- Witness for C7: a fetch asking only for a source with no registered
handler returns the empty response. -/
theorem C7_unreachable_targets_empty_result_witness :
    (NewsFetcher.fetch hsZn [] 0 (some [.qiita]) none false).1 = ⟨[], none⟩ :=
  (C7_unreachable_targets_empty_result hsZn [] 0 (some [.qiita]) none false (by decide)).1

/-- C10 (amended): a cache read never yields an empty list, and writing an
empty item list is a no-op on the table, hence preserves whatever any later
read would have reported. -/
theorem C10_get_never_empty :
    (∀ (t : Table) (now : Nat) (s : SourceType) (l : List NewsItem),
        CacheManager.get t now s = some l → l ≠ []) ∧
      (∀ (t : Table) (now : Nat) (s : SourceType), CacheManager.set t now s [] = t) ∧
      (∀ (t : Table) (now now2 : Nat) (s s2 : SourceType),
        CacheManager.get (CacheManager.set t now s []) now2 s2
          = CacheManager.get t now2 s2) := by
  refine ⟨?_, fun _ _ _ => rfl, fun _ _ _ _ _ => rfl⟩
  intro t now s l h
  unfold CacheManager.get at h
  dsimp only at h
  split at h
  · exact absurd h (by simp)
  · split at h
    · exact absurd h (by simp)
    · rename_i hinner
      injection h with h'
      intro hnil
      apply hinner
      rw [h', hnil]
      rfl

/-- Witness for C10: the cached zenn row is served as a non-empty list, and
`set` of the empty list on the empty table leaves it empty. -/
theorem C10_get_never_empty_witness :
    [exZn] ≠ ([] : List NewsItem) ∧ CacheManager.set [] 0 .zenn [] = [] :=
  ⟨C10_get_never_empty.1 tZn 10 .zenn [exZn] (by decide),
    C10_get_never_empty.2.1 [] 0 .zenn⟩

/-! ### Session-memory lemmas -/

theorem validPySetList : ValidSetEnum pySetList := fun _ => List.Perm.refl _

theorem record_mem (enum : SetEnum) (he : ValidSetEnum enum)
    (st ids : List String) (i : String) :
    i ∈ ProposedIdsManager.record_proposed_ids enum st ids ↔ i ∈ st ∨ i ∈ ids := by
  unfold ProposedIdsManager.record_proposed_ids
  rw [List.mem_append]
  have henum : i ∈ enum st ↔ i ∈ st := by
    rw [(he st).mem_iff]
    exact List.mem_dedup
  constructor
  · rintro (h | h)
    · exact Or.inl (henum.mp h)
    · exact Or.inr (List.mem_filter.mp h).1
  · rintro (h | h)
    · exact Or.inl (henum.mpr h)
    · by_cases hc : st.contains i = true
      · exact Or.inl (henum.mpr ((containsStr_iff st i).mp hc))
      · refine Or.inr (List.mem_filter.mpr ⟨h, ?_⟩)
        cases hcc : st.contains i with
        | false => rfl
        | true => exact absurd hcc hc

theorem record_nodup (enum : SetEnum) (he : ValidSetEnum enum)
    (st ids : List String) (hids : ids.Nodup) :
    (ProposedIdsManager.record_proposed_ids enum st ids).Nodup := by
  unfold ProposedIdsManager.record_proposed_ids
  refine List.Nodup.append ?_ (hids.filter _) ?_
  · exact (he st).symm.nodup (List.nodup_dedup st)
  · intro a ha hb
    have h1 : a ∈ st := by
      rw [← List.mem_dedup]
      exact (he st).subset ha
    have h2 := (List.mem_filter.mp hb).2
    rw [Bool.not_eq_true', ← Bool.not_eq_true] at h2
    exact h2 ((containsStr_iff st a).mpr h1)

theorem foldRecord_mem (enum : SetEnum) (he : ValidSetEnum enum)
    (calls : List (List String)) :
    ∀ (st : List String) (i : String),
      i ∈ calls.foldl (ProposedIdsManager.record_proposed_ids enum) st
        ↔ i ∈ st ∨ ∃ c ∈ calls, i ∈ c := by
  induction calls with
  | nil => intro st i; simp
  | cons c rest ih =>
    intro st i
    rw [List.foldl_cons, ih, record_mem enum he]
    constructor
    · rintro ((h | h) | ⟨d, hd, hi⟩)
      · exact Or.inl h
      · exact Or.inr ⟨c, by simp, h⟩
      · exact Or.inr ⟨d, by simp [hd], hi⟩
    · rintro (h | ⟨d, hd, hi⟩)
      · exact Or.inl (Or.inl h)
      · rcases List.mem_cons.mp hd with rfl | hd
        · exact Or.inl (Or.inr hi)
        · exact Or.inr ⟨d, hd, hi⟩

theorem foldRecord_nodup (enum : SetEnum) (he : ValidSetEnum enum)
    (calls : List (List String)) (hcalls : ∀ c ∈ calls, c.Nodup) :
    ∀ st : List String, calls ≠ [] →
      (calls.foldl (ProposedIdsManager.record_proposed_ids enum) st).Nodup := by
  induction calls with
  | nil => intro st h; exact absurd rfl h
  | cons c rest ih =>
    intro st _
    rw [List.foldl_cons]
    rcases List.eq_nil_or_concat rest with rfl | _
    · exact record_nodup enum he st c (hcalls c (by simp))
    · by_cases hr : rest = []
      · subst hr
        exact record_nodup enum he st c (hcalls c (by simp))
      · exact ih (fun d hd => hcalls d (by simp [hd])) _ hr

/-- C9 (amended): over any sequence of `record_proposed_ids` calls whose
individual id lists are duplicate-free, the stored list stays
duplicate-free and holds exactly the union of the recorded ids; within one
call the genuinely new ids form the stored list's tail in arrival order.
The relative order of ids recorded by earlier calls is not preserved: the
prefix is rebuilt through `list(set(existing))`, modelled by the arbitrary
admissible enumeration `enum`. -/
theorem C9_record_union_nodup (enum : SetEnum) (he : ValidSetEnum enum)
    (calls : List (List String)) (hcalls : ∀ c ∈ calls, c.Nodup) :
    ((calls.foldl (ProposedIdsManager.record_proposed_ids enum) []).Nodup) ∧
      (∀ i, i ∈ calls.foldl (ProposedIdsManager.record_proposed_ids enum) []
        ↔ ∃ c ∈ calls, i ∈ c) ∧
      (∀ st ids, (ids.filter (fun i => !(st.contains i)))
        <:+ ProposedIdsManager.record_proposed_ids enum st ids) := by
  refine ⟨?_, ?_, ?_⟩
  · rcases List.eq_nil_or_concat calls with rfl | _
    · simp
    · by_cases hc : calls = []
      · subst hc; simp
      · exact foldRecord_nodup enum he calls hcalls [] hc
  · intro i
    rw [foldRecord_mem enum he]
    simp
  · intro st ids
    exact List.suffix_append _ _

/-- Witness for C9: recording ["b","a"] then ["c"] from an empty store
leaves a duplicate-free store containing "b". -/
theorem C9_record_union_nodup_witness :
    (([["b", "a"], ["c"]].foldl (ProposedIdsManager.record_proposed_ids pySetList) []).Nodup) ∧
      "b" ∈ [["b", "a"], ["c"]].foldl (ProposedIdsManager.record_proposed_ids pySetList) [] :=
  ⟨(C9_record_union_nodup pySetList validPySetList [["b", "a"], ["c"]] (by decide)).1,
    ((C9_record_union_nodup pySetList validPySetList [["b", "a"], ["c"]] (by decide)).2.1 "b").mpr
      ⟨["b", "a"], by decide, by decide⟩⟩

/-! ### Stable-sort and slicing lemmas -/

theorem length_insSorted (le : α → α → Bool) (l : List α) (x : α) :
    (insSorted le l x).length = l.length + 1 := by
  induction l with
  | nil => rfl
  | cons h tl ih =>
    unfold insSorted
    by_cases hle : le h x = true
    · simp [hle, ih]
    · simp [hle]

theorem mem_insSorted (le : α → α → Bool) (l : List α) (x a : α) :
    a ∈ insSorted le l x ↔ a ∈ l ∨ a = x := by
  induction l with
  | nil => simp [insSorted]
  | cons h tl ih =>
    unfold insSorted
    by_cases hle : le h x = true
    · simp only [hle, if_true, List.mem_cons, ih]
      tauto
    · simp only [hle, if_false, Bool.false_eq_true, List.mem_cons]
      tauto

theorem length_sortStable (le : α → α → Bool) (xs : List α) :
    (sortStable le xs).length = xs.length := by
  suffices h : ∀ acc : List α, (xs.foldl (insSorted le) acc).length = acc.length + xs.length by
    simpa using h []
  induction xs with
  | nil => intro acc; simp
  | cons x xs ih =>
    intro acc
    rw [List.foldl_cons, ih, length_insSorted, List.length_cons]
    omega

theorem mem_sortStable (le : α → α → Bool) (xs : List α) (a : α) :
    a ∈ sortStable le xs ↔ a ∈ xs := by
  suffices h : ∀ acc : List α, a ∈ xs.foldl (insSorted le) acc ↔ a ∈ acc ∨ a ∈ xs by
    simpa using h []
  induction xs with
  | nil => intro acc; simp
  | cons x xs ih =>
    intro acc
    rw [List.foldl_cons, ih, mem_insSorted]
    simp only [List.mem_cons]
    tauto

theorem pySliceTo_subset (xs : List α) (k : Int) : pySliceTo xs k ⊆ xs := by
  unfold pySliceTo
  split
  · exact List.take_subset _ _
  · exact List.take_subset _ _

/-! ### Per-source grouping: membership -/

theorem mem_flatten_appendToGroup (m : List (SourceType × List NewsItem))
    (s : SourceType) (y x : NewsItem)
    (h : x ∈ ((appendToGroup m s y).map (fun p => p.2)).flatten) :
    x ∈ ((m.map (fun p => p.2)).flatten) ∨ x = y := by
  unfold appendToGroup at h
  split at h
  · rw [List.map_map, List.mem_flatten] at h
    obtain ⟨l, hl, hx⟩ := h
    rw [List.mem_map] at hl
    obtain ⟨p, hp, hpl⟩ := hl
    by_cases hps : (p.1 == s) = true
    · simp only [Function.comp, hps, if_true] at hpl
      rw [← hpl, List.mem_append] at hx
      rcases hx with hx | hx
      · exact Or.inl (List.mem_flatten.mpr ⟨p.2, List.mem_map.mpr ⟨p, hp, rfl⟩, hx⟩)
      · simp at hx
        exact Or.inr hx
    · simp only [Function.comp, hps, if_false, Bool.false_eq_true] at hpl
      exact Or.inl (List.mem_flatten.mpr ⟨p.2, List.mem_map.mpr ⟨p, hp, hpl.symm ▸ rfl⟩, hpl ▸ hx⟩)
  · rw [List.map_append, List.flatten_append, List.mem_append] at h
    rcases h with h | h
    · exact Or.inl h
    · simp at h
      exact Or.inr h

theorem mem_flatten_addCapped (m : List (SourceType × List NewsItem))
    (y x : NewsItem)
    (h : x ∈ ((addCapped m y).map (fun p => p.2)).flatten) :
    x ∈ ((m.map (fun p => p.2)).flatten) ∨ x = y := by
  unfold addCapped at h
  split at h
  · exact mem_flatten_appendToGroup m y.source y x h
  · exact Or.inl h

theorem mem_limited_sub (items : List NewsItem) :
    ∀ x ∈ limitedItemsOf items, x ∈ items := by
  suffices h : ∀ (xs : List NewsItem) (m : List (SourceType × List NewsItem)) (x : NewsItem),
      x ∈ ((xs.foldl addCapped m).map (fun p => p.2)).flatten →
        x ∈ ((m.map (fun p => p.2)).flatten) ∨ x ∈ xs by
    intro x hx
    rcases h items [] x hx with h0 | h0
    · simp at h0
    · exact h0
  intro xs
  induction xs with
  | nil => intro m x hx; exact Or.inl hx
  | cons y xs ih =>
    intro m x hx
    rw [List.foldl_cons] at hx
    rcases ih (addCapped m y) x hx with h0 | h0
    · rcases mem_flatten_addCapped m y x h0 with h1 | h1
      · exact Or.inl h1
      · exact Or.inr (by simp [h1])
    · exact Or.inr (by simp [h0])

/-! ### `get_news`: dedup mechanics -/

theorem get_news_items_sub (enum : SetEnum) (fetched : List NewsItem)
    (stored : List String) (limit : Int) :
    ∀ it ∈ (ByteSipAgent.get_news enum fetched stored limit).1.items,
      it ∈ unproposedItemsOf stored fetched := by
  intro it hit
  unfold ByteSipAgent.get_news at hit
  dsimp only at hit
  have h1 : it ∈ sortedItemsOf (unproposedItemsOf stored fetched) :=
    pySliceTo_subset _ _ hit
  unfold sortedItemsOf at h1
  rw [mem_sortStable] at h1
  exact mem_limited_sub _ it h1

theorem get_news_ids_not_stored (enum : SetEnum) (fetched : List NewsItem)
    (stored : List String) (limit : Int) :
    ∀ it ∈ (ByteSipAgent.get_news enum fetched stored limit).1.items,
      it.id ∉ stored := by
  intro it hit
  have h := get_news_items_sub enum fetched stored limit it hit
  unfold unproposedItemsOf at h
  rw [List.mem_filter] at h
  have h2 := (containsStr_iff _ _).mp h.2
  unfold ProposedIdsManager.filter_unproposed at h2
  rw [List.mem_filter] at h2
  intro hmem
  have := h2.2
  rw [(containsStr_iff stored it.id).mpr hmem] at this
  exact absurd this (by simp)

theorem get_news_ids_recorded (enum : SetEnum) (fetched : List NewsItem)
    (stored : List String) (limit : Int) :
    ∀ it ∈ (ByteSipAgent.get_news enum fetched stored limit).1.items,
      it.id ∈ (ByteSipAgent.get_news enum fetched stored limit).2 := by
  intro it hit
  have hnot := get_news_ids_not_stored enum fetched stored limit it hit
  unfold ByteSipAgent.get_news at hit ⊢
  dsimp only at hit ⊢
  have hne : (pySliceTo (sortedItemsOf (unproposedItemsOf stored fetched))
      (min limit (MAX_TOTAL : Int))).isEmpty = false := by
    rcases hemp : pySliceTo (sortedItemsOf (unproposedItemsOf stored fetched))
        (min limit (MAX_TOTAL : Int)) with _ | ⟨a, l⟩
    · rw [hemp] at hit; cases hit
    · rfl
  rw [hne]
  simp only [Bool.false_eq_true, if_false]
  unfold ProposedIdsManager.record_proposed_ids
  rw [List.mem_append]
  refine Or.inr (List.mem_filter.mpr ⟨List.mem_map.mpr ⟨it, hit, rfl⟩, ?_⟩)
  cases hcc : stored.contains it.id with
  | false => rfl
  | true => exact absurd ((containsStr_iff _ _).mp hcc) hnot

theorem get_news_stored_monotone (enum : SetEnum) (he : ValidSetEnum enum)
    (fetched : List NewsItem) (stored : List String) (limit : Int) :
    ∀ x ∈ stored, x ∈ (ByteSipAgent.get_news enum fetched stored limit).2 := by
  intro x hx
  unfold ByteSipAgent.get_news
  dsimp only
  split
  · exact hx
  · exact (record_mem enum he stored _ x).mpr (Or.inl hx)

theorem runGetNews_stored_monotone (enum : SetEnum) (he : ValidSetEnum enum)
    (f : Option (List SourceType) → Option (List String) → List NewsItem)
    (calls : List AgentCall) :
    ∀ (st : List String) (x : String), x ∈ st → x ∈ (runGetNews enum f calls st).2 := by
  induction calls with
  | nil => intro st x hx; exact hx
  | cons c rest ih =>
    intro st x hx
    exact ih _ x (get_news_stored_monotone enum he _ st c.limit x hx)

theorem runGetNews_out_ids_not_in_start (enum : SetEnum) (he : ValidSetEnum enum)
    (f : Option (List SourceType) → Option (List String) → List NewsItem)
    (calls : List AgentCall) :
    ∀ (st : List String), ∀ out ∈ (runGetNews enum f calls st).1,
      ∀ i ∈ out.map (fun it => it.id), i ∉ st := by
  induction calls with
  | nil => intro st out hout; cases hout
  | cons c rest ih =>
    intro st out hout i hi
    rcases List.mem_cons.mp hout with rfl | htail
    · obtain ⟨it, hit, rfl⟩ := List.mem_map.mp hi
      exact get_news_ids_not_stored enum _ st c.limit it hit
    · intro hmem
      have hst1 := get_news_stored_monotone enum he (f c.sources c.tags) st c.limit i hmem
      exact ih _ out htail i hi hst1

/-- C4: over a fixed fetch boundary, the item lists returned by the calls
of one session are pairwise disjoint by id: each returned item's id is
absent from session memory at call time and recorded into session memory
before the call returns, and the memory only grows. -/
theorem C4_no_repeats_across_calls (enum : SetEnum) (he : ValidSetEnum enum)
    (f : Option (List SourceType) → Option (List String) → List NewsItem)
    (calls : List AgentCall) (st0 : List String) :
    ((runGetNews enum f calls st0).1).Pairwise
        (fun xs ys => ∀ i ∈ xs.map (fun it => it.id), i ∉ ys.map (fun it => it.id)) ∧
      (∀ (fetched : List NewsItem) (stored : List String) (limit : Int),
        ∀ it ∈ (ByteSipAgent.get_news enum fetched stored limit).1.items,
          it.id ∉ stored ∧
            it.id ∈ (ByteSipAgent.get_news enum fetched stored limit).2) := by
  constructor
  · induction calls generalizing st0 with
    | nil => exact List.Pairwise.nil
    | cons c rest ih =>
      refine List.Pairwise.cons ?_ (ih _)
      intro ys hys i hi
      obtain ⟨it, hit, rfl⟩ := List.mem_map.mp hi
      have hrec := get_news_ids_recorded enum (f c.sources c.tags) st0 c.limit it hit
      intro hmem
      exact runGetNews_out_ids_not_in_start enum he f rest _ ys hys it.id hmem hrec
  · intro fetched stored limit it hit
    exact ⟨get_news_ids_not_stored enum fetched stored limit it hit,
      get_news_ids_recorded enum fetched stored limit it hit⟩

/-- Witness for C4: two calls with limit 1 then 5 over the same two-item
fetch result return disjoint item lists. -/
theorem C4_no_repeats_across_calls_witness :
    ((runGetNews pySetList (fun _ _ => [exA, exB])
        [⟨none, none, 1⟩, ⟨none, none, 5⟩] []).1).Pairwise
      (fun xs ys => ∀ i ∈ xs.map (fun it => it.id), i ∉ ys.map (fun it => it.id)) :=
  (C4_no_repeats_across_calls pySetList validPySetList (fun _ _ => [exA, exB])
    [⟨none, none, 1⟩, ⟨none, none, 5⟩] []).1

/-! ### Per-source grouping: counting -/

theorem groupOf_appendToGroup_self (m : List (SourceType × List NewsItem))
    (s : SourceType) (it : NewsItem) :
    groupOf (appendToGroup m s it) s = groupOf m s ++ [it] := by
  unfold appendToGroup groupOf
  by_cases hany : m.any (fun p => p.1 == s) = true
  · rw [if_pos hany, List.find?_map]
    have hcomp : ((fun (q : SourceType × List NewsItem) => q.1 == s) ∘
        fun p => if p.1 == s then (p.1, p.2 ++ [it]) else p)
          = fun (p : SourceType × List NewsItem) => p.1 == s := by
      funext p
      by_cases hp : (p.1 == s) = true <;> simp [Function.comp, hp]
    rw [hcomp]
    obtain ⟨q, hq, hq1⟩ := List.any_eq_true.mp hany
    cases hfind : m.find? (fun p => p.1 == s) with
    | none => exact absurd (List.find?_eq_none.mp hfind q hq) (by simp [hq1])
    | some q0 =>
      have hq0 : q0.1 = s :=
        beq_iff_eq.mp (@List.find?_some _ (fun p => p.1 == s) q0 m hfind)
      simp [hq0]
  · rw [if_neg hany]
    have hnone : m.find? (fun p => p.1 == s) = none := by
      rw [List.find?_eq_none]
      exact fun x hx hpx => hany (List.any_eq_true.mpr ⟨x, hx, hpx⟩)
    rw [List.find?_append, hnone]
    simp [hnone]

theorem groupOf_appendToGroup_ne (m : List (SourceType × List NewsItem))
    (s s' : SourceType) (it : NewsItem) (hne : s' ≠ s) :
    groupOf (appendToGroup m s it) s' = groupOf m s' := by
  unfold appendToGroup groupOf
  by_cases hany : m.any (fun p => p.1 == s) = true
  · rw [if_pos hany, List.find?_map]
    have hcomp : ((fun (q : SourceType × List NewsItem) => q.1 == s') ∘
        fun p => if p.1 == s then (p.1, p.2 ++ [it]) else p)
          = fun (p : SourceType × List NewsItem) => p.1 == s' := by
      funext p
      by_cases hp : (p.1 == s) = true <;> simp [Function.comp, hp]
    rw [hcomp]
    cases hfind : m.find? (fun p => p.1 == s') with
    | none => simp
    | some q0 =>
      have hq0 : q0.1 = s' :=
        beq_iff_eq.mp (@List.find?_some _ (fun p => p.1 == s') q0 m hfind)
      have hq0ne : ¬ q0.1 = s := by rw [hq0]; exact hne
      simp [hq0ne]
  · rw [if_neg hany, List.find?_append]
    have hss : ((s, [it]) : SourceType × List NewsItem).1 == s' → False := by
      simp
      exact fun hh => hne hh.symm
    have : List.find? (fun p => p.1 == s') [(s, [it])] = none := by
      rw [List.find?_eq_none]
      intro x hx
      simp at hx
      subst hx
      intro hc
      exact hss hc
    rw [this]
    simp

theorem groupOf_addCapped (m : List (SourceType × List NewsItem)) (x : NewsItem)
    (s : SourceType) :
    groupOf (addCapped m x) s
      = if x.source = s ∧ (groupOf m x.source).length < MAX_PER_SOURCE
        then groupOf m s ++ [x] else groupOf m s := by
  unfold addCapped
  by_cases hlen : (groupOf m x.source).length < MAX_PER_SOURCE
  · rw [if_pos hlen]
    by_cases hsrc : x.source = s
    · subst hsrc
      rw [groupOf_appendToGroup_self, if_pos ⟨rfl, hlen⟩]
    · rw [groupOf_appendToGroup_ne m x.source s x (fun hh => hsrc hh.symm),
        if_neg (fun hc => hsrc hc.1)]
  · rw [if_neg hlen, if_neg (fun hc => hlen hc.2)]

theorem groupOf_foldl (xs : List NewsItem) :
    ∀ (m : List (SourceType × List NewsItem)) (s : SourceType),
      (groupOf m s).length ≤ MAX_PER_SOURCE →
      (groupOf (xs.foldl addCapped m) s).length
        = min ((groupOf m s).length + xs.countP (fun it => it.source == s))
            MAX_PER_SOURCE := by
  induction xs with
  | nil =>
    intro m s hle
    simp only [List.foldl_nil, List.countP_nil]
    omega
  | cons x xs ih =>
    intro m s hle
    rw [List.foldl_cons, List.countP_cons]
    have hx := groupOf_addCapped m x s
    have hle' : (groupOf (addCapped m x) s).length ≤ MAX_PER_SOURCE := by
      rw [hx]
      split
      · rename_i hc
        have hlt := hc.2
        have heq : groupOf m x.source = groupOf m s := by rw [hc.1]
        rw [heq] at hlt
        rw [List.length_append, List.length_singleton]
        omega
      · exact hle
    rw [ih (addCapped m x) s hle', hx]
    by_cases hc : x.source = s ∧ (groupOf m x.source).length < MAX_PER_SOURCE
    · rw [if_pos hc]
      have hbeq : (x.source == s) = true := by simp [hc.1]
      simp only [hbeq, if_true, List.length_append, List.length_singleton]
      omega
    · rw [if_neg hc]
      by_cases hss : x.source = s
      · have hlt : ¬ (groupOf m x.source).length < MAX_PER_SOURCE :=
          fun hl => hc ⟨hss, hl⟩
        have heq : groupOf m x.source = groupOf m s := by rw [hss]
        rw [heq] at hlt
        have hbeq : (x.source == s) = true := by simp [hss]
        simp only [hbeq, if_true]
        omega
      · have hbeq : (x.source == s) = false := by simp [hss]
        simp only [hbeq, Bool.false_eq_true, if_false]
        omega

theorem keys_appendToGroup_fst (m : List (SourceType × List NewsItem))
    (s : SourceType) (it : NewsItem) :
    (appendToGroup m s it).map (fun p => p.1)
      = if m.any (fun p => p.1 == s) = true then m.map (fun p => p.1)
        else m.map (fun p => p.1) ++ [s] := by
  unfold appendToGroup
  by_cases hany : m.any (fun p => p.1 == s) = true
  · rw [if_pos hany, if_pos hany, List.map_map]
    apply List.map_congr_left
    intro p _
    by_cases hp : (p.1 == s) = true <;> simp [Function.comp, hp]
  · rw [if_neg hany, if_neg hany, List.map_append]
    rfl

theorem keysNodup_addCapped (m : List (SourceType × List NewsItem)) (x : NewsItem)
    (h : (m.map (fun p => p.1)).Nodup) :
    ((addCapped m x).map (fun p => p.1)).Nodup := by
  unfold addCapped
  split
  · rw [keys_appendToGroup_fst]
    split
    · exact h
    · rename_i hany
      refine List.Nodup.append h (List.nodup_singleton _) ?_
      intro a ha hb
      simp at hb
      subst hb
      obtain ⟨p, hp, hp1⟩ := List.mem_map.mp ha
      exact hany (List.any_eq_true.mpr ⟨p, hp, by simp [hp1]⟩)
  · exact h

theorem keysNodup_itemsBySource (items : List NewsItem) :
    ((itemsBySource items).map (fun p => p.1)).Nodup := by
  suffices h : ∀ (xs : List NewsItem) (m : List (SourceType × List NewsItem)),
      (m.map (fun p => p.1)).Nodup →
        ((xs.foldl addCapped m).map (fun p => p.1)).Nodup by
    exact h items [] (by simp)
  intro xs
  induction xs with
  | nil => intro m hm; exact hm
  | cons x xs ih => intro m hm; exact ih _ (keysNodup_addCapped m x hm)

theorem groupOf_ne_nil_mem_keys (m : List (SourceType × List NewsItem))
    (s : SourceType) (h : groupOf m s ≠ []) : s ∈ m.map (fun p => p.1) := by
  unfold groupOf at h
  cases hfind : m.find? (fun p => p.1 == s) with
  | none => rw [hfind] at h; simp at h
  | some q =>
    have hq1 : q.1 = s :=
      beq_iff_eq.mp (@List.find?_some _ (fun p => p.1 == s) q m hfind)
    exact List.mem_map.mpr ⟨q, List.mem_of_find?_eq_some hfind, hq1⟩

theorem mem_keys_addCapped (m : List (SourceType × List NewsItem)) (x : NewsItem)
    (s : SourceType) :
    s ∈ (addCapped m x).map (fun p => p.1)
      ↔ s ∈ m.map (fun p => p.1) ∨ s = x.source := by
  unfold addCapped
  split
  · rw [keys_appendToGroup_fst]
    split
    · rename_i hany
      constructor
      · exact Or.inl
      · rintro (h | rfl)
        · exact h
        · obtain ⟨p, hp, hp1⟩ := List.any_eq_true.mp hany
          exact List.mem_map.mpr ⟨p, hp, by simpa using hp1⟩
    · rw [List.mem_append]
      simp
  · rename_i hlen
    constructor
    · exact Or.inl
    · rintro (h | rfl)
      · exact h
      · apply groupOf_ne_nil_mem_keys
        intro hnil
        apply hlen
        rw [hnil]
        decide

theorem mem_keys_foldl (xs : List NewsItem) :
    ∀ (m : List (SourceType × List NewsItem)) (s : SourceType),
      s ∈ (xs.foldl addCapped m).map (fun p => p.1)
        ↔ s ∈ m.map (fun p => p.1) ∨ s ∈ xs.map (fun it => it.source) := by
  induction xs with
  | nil => intro m s; simp
  | cons x xs ih =>
    intro m s
    rw [List.foldl_cons, ih, mem_keys_addCapped]
    simp only [List.map_cons, List.mem_cons]
    tauto

theorem groupOf_cons_self (q : SourceType × List NewsItem)
    (m : List (SourceType × List NewsItem)) : groupOf (q :: m) q.1 = q.2 := by
  unfold groupOf
  rw [List.find?_cons_of_pos _ (by simp)]
  rfl

theorem groupOf_cons_ne (q : SourceType × List NewsItem)
    (m : List (SourceType × List NewsItem)) (s : SourceType) (h : s ≠ q.1) :
    groupOf (q :: m) s = groupOf m s := by
  unfold groupOf
  rw [List.find?_cons_of_neg _ (by simp; exact fun hh => h hh.symm)]

theorem flatten_values_eq_sum (m : List (SourceType × List NewsItem))
    (h : (m.map (fun p => p.1)).Nodup) :
    ((m.map (fun p => p.2)).flatten).length
      = ((m.map (fun p => p.1)).map (fun s => (groupOf m s).length)).sum := by
  induction m with
  | nil => rfl
  | cons q m ih =>
    have h' := h
    rw [List.map_cons] at h'
    obtain ⟨hq, hnd⟩ := List.nodup_cons.mp h'
    rw [List.map_cons, List.map_cons, List.flatten_cons, List.length_append,
      List.map_cons, List.sum_cons, groupOf_cons_self]
    congr 1
    rw [ih hnd]
    congr 1
    apply List.map_congr_left
    intro s hs
    rw [groupOf_cons_ne q m s (fun hh => hq (hh ▸ hs))]

theorem perm_of_nodup_mem_iff {α : Type} [DecidableEq α] {l1 l2 : List α}
    (h1 : l1.Nodup) (h2 : l2.Nodup) (h : ∀ a, a ∈ l1 ↔ a ∈ l2) : l1.Perm l2 := by
  rw [List.perm_iff_count]
  intro a
  by_cases ha : a ∈ l1
  · rw [List.count_eq_one_of_mem h1 ha, List.count_eq_one_of_mem h2 ((h a).mp ha)]
  · rw [List.count_eq_zero.mpr ha,
      List.count_eq_zero.mpr (fun hb => ha ((h a).mpr hb))]

theorem limited_length (items : List NewsItem) :
    (limitedItemsOf items).length = perSourceCapTotal items := by
  unfold limitedItemsOf perSourceCapTotal
  rw [flatten_values_eq_sum (itemsBySource items) (keysNodup_itemsBySource items)]
  have h2 : ((itemsBySource items).map (fun p => p.1)).map
        (fun s => (groupOf (itemsBySource items) s).length)
      = ((itemsBySource items).map (fun p => p.1)).map
        (fun s => min (items.countP (fun it => it.source == s)) MAX_PER_SOURCE) := by
    apply List.map_congr_left
    intro s _
    have h0 := groupOf_foldl items [] s (by simp [groupOf])
    simpa [itemsBySource, show groupOf ([] : List (SourceType × List NewsItem)) s = []
      from rfl] using h0
  rw [h2]
  have hperm : ((itemsBySource items).map (fun p => p.1)).Perm
      ((items.map (fun it => it.source)).dedup) := by
    apply perm_of_nodup_mem_iff (keysNodup_itemsBySource items) (List.nodup_dedup _)
    intro a
    rw [List.mem_dedup]
    simpa [itemsBySource] using mem_keys_foldl items [] a
  exact (hperm.map _).sum_eq

/-- C3 (amended): the returned item count of `get_news` follows
`limited_items[:min(limit, 30)]` exactly: for `limit ≥ 0` it is
`min(limit, 30, available_after_caps)`, where `available_after_caps` is the
per-source-capped count of the unproposed items; for `limit < 0` the Python
slice drops `|limit|` items from the end, returning
`max(available_after_caps + limit, 0)` items — not necessarily zero. -/
theorem C3_item_count_formula (enum : SetEnum) (fetched : List NewsItem)
    (stored : List String) (limit : Int) :
    (ByteSipAgent.get_news enum fetched stored limit).1.items.length
      = if 0 ≤ limit
        then min (min limit.toNat MAX_TOTAL)
            (perSourceCapTotal (unproposedItemsOf stored fetched))
        else ((perSourceCapTotal (unproposedItemsOf stored fetched) : Int)
            + limit).toNat := by
  unfold ByteSipAgent.get_news
  dsimp only
  have hlen : (sortedItemsOf (unproposedItemsOf stored fetched)).length
      = perSourceCapTotal (unproposedItemsOf stored fetched) := by
    unfold sortedItemsOf
    rw [length_sortStable, limited_length]
  unfold pySliceTo
  have h30 : (MAX_TOTAL : Int) = 30 := rfl
  have h30' : MAX_TOTAL = 30 := rfl
  split
  · rename_i hneg
    rw [List.length_take, hlen, h30] at *
    split
    · rename_i hpos
      exfalso
      omega
    · rename_i hpos
      omega
  · rename_i hpos
    rw [List.length_take, hlen, h30] at *
    rw [h30'] at *
    split
    · rename_i h0
      omega
    · rename_i h0
      exfalso
      omega

/-! ### Cache partition frame lemmas -/

theorem pkOf_ne {s' s : SourceType} (hne : s' ≠ s) : pkOf s' ≠ pkOf s := by
  cases s' <;> cases s <;> revert hne <;> decide

theorem filter_pk_isItem (t : Table) (s : SourceType) :
    t.filter (fun r => r.pk == pkOf s && isItemRow r)
      = (rowsFor t s).filter isItemRow := by
  unfold rowsFor
  rw [List.filter_filter]
  apply List.filter_congr
  intro x _
  rw [Bool.and_comm]

theorem get_eq_of_rowsFor (t1 t2 : Table) (now : Nat) (s : SourceType)
    (h : rowsFor t1 s = rowsFor t2 s) :
    CacheManager.get t1 now s = CacheManager.get t2 now s := by
  unfold CacheManager.get
  dsimp only
  rw [filter_pk_isItem, filter_pk_isItem, h]

theorem filter_map_replace (r : CacheRow) (s : SourceType) (hne : r.pk ≠ pkOf s) :
    ∀ t : Table,
      (t.map (fun x => if x.pk == r.pk && x.sk == r.sk then r else x)).filter
          (fun x => x.pk == pkOf s)
        = t.filter (fun x => x.pk == pkOf s) := by
  intro t
  induction t with
  | nil => rfl
  | cons x t ih =>
    rw [List.map_cons]
    by_cases hx : (x.pk == r.pk && x.sk == r.sk) = true
    · have hx' := hx
      rw [Bool.and_eq_true] at hx'
      have hxpk : x.pk = r.pk := beq_iff_eq.mp hx'.1
      have h1 : ¬((x.pk == pkOf s) = true) :=
        fun hc => hne (by rw [← hxpk]; exact beq_iff_eq.mp hc)
      have h2 : ¬((r.pk == pkOf s) = true) := fun hc => hne (beq_iff_eq.mp hc)
      rw [if_pos hx, List.filter_cons, List.filter_cons, if_neg h2, if_neg h1]
      exact ih
    · rw [if_neg hx, List.filter_cons, List.filter_cons]
      by_cases hpx : (x.pk == pkOf s) = true
      · rw [if_pos hpx, if_pos hpx, ih]
      · rw [if_neg hpx, if_neg hpx]
        exact ih

theorem putItem_rowsFor (t : Table) (r : CacheRow) (s : SourceType)
    (hne : r.pk ≠ pkOf s) : rowsFor (putItem t r) s = rowsFor t s := by
  unfold putItem rowsFor
  split
  · exact filter_map_replace r s hne t
  · rw [List.filter_append]
    have hnil : ([r].filter (fun x => x.pk == pkOf s)) = [] := by
      rw [List.filter_cons]
      rw [if_neg (fun hc => hne (beq_iff_eq.mp hc))]
      rfl
    rw [hnil, List.append_nil]

theorem set_rowsFor (t : Table) (now : Nat) (s' : SourceType)
    (items : List NewsItem) (s : SourceType) (hne : s' ≠ s) :
    rowsFor (CacheManager.set t now s' items) s = rowsFor t s := by
  unfold CacheManager.set
  dsimp only
  generalize items.take MAX_ITEMS_PER_SOURCE = l
  induction l generalizing t with
  | nil => rfl
  | cons z l ih =>
    rw [List.foldl_cons, ih]
    exact putItem_rowsFor t _ s (pkOf_ne hne)

theorem fetchSource_rowsFor (h : Handler) (t : Table) (now : Nat)
    (s' : SourceType) (tags : Option (List String)) (fr : Bool) (s : SourceType)
    (hne : s' ≠ s) :
    rowsFor (NewsFetcher.fetchSource h t now s' tags fr).2.1 s = rowsFor t s := by
  unfold NewsFetcher.fetchSource
  by_cases hfr : fr = false
  · rw [if_pos hfr]
    cases hget : CacheManager.get t now s' with
    | some cached => rfl
    | none =>
      cases hh : h tags with
      | ok its => exact set_rowsFor t now s' its s hne
      | error e => rfl
  · rw [if_neg hfr]
    cases hh : h tags with
    | ok its => exact set_rowsFor t now s' its s hne
    | error e => rfl

theorem runSources_cacheHit (hs : Handlers) (targets : List SourceType)
    (now : Nat) (tags : Option (List String)) (s : SourceType) (cs : List NewsItem) :
    ∀ (t t0 : Table), rowsFor t s = rowsFor t0 s →
      CacheManager.get t0 now s = some cs →
      (∀ r, (s, r) ∈ (runSources hs targets t now tags false).1 → r = Except.ok cs) ∧
        s ∉ (runSources hs targets t now tags false).2.2 ∧
        rowsFor (runSources hs targets t now tags false).2.1 s = rowsFor t0 s := by
  induction targets with
  | nil =>
    intro t t0 hrows hget
    refine ⟨fun r hr => absurd hr ?_, ?_, ?_⟩
    · simp [runSources]
    · simp [runSources]
    · simpa [runSources] using hrows
  | cons x rest ih =>
    intro t t0 hrows hget
    cases hlk : lookupHandler hs x with
    | none =>
      simp only [runSources, hlk]
      exact ih t t0 hrows hget
    | some h =>
      simp only [runSources, hlk]
      by_cases hx : x = s
      · subst hx
        have hgetx : CacheManager.get t now x = some cs := by
          rw [get_eq_of_rowsFor t t0 now x hrows]
          exact hget
        have hstep : NewsFetcher.fetchSource h t now x tags false
            = (Except.ok cs, t, false) := by
          unfold NewsFetcher.fetchSource
          rw [if_pos rfl, hgetx]
        rw [hstep]
        obtain ⟨ih1, ih2, ih3⟩ := ih t t0 hrows hget
        refine ⟨?_, ?_, ?_⟩
        · intro r hr
          rcases List.mem_cons.mp hr with heq | htail
          · exact congrArg Prod.snd heq
          · exact ih1 r htail
        · simpa using ih2
        · simpa using ih3
      · have hrows' : rowsFor (NewsFetcher.fetchSource h t now x tags false).2.1 s
            = rowsFor t0 s := by
          rw [fetchSource_rowsFor h t now x tags false s hx]
          exact hrows
        obtain ⟨ih1, ih2, ih3⟩ := ih _ t0 hrows' hget
        refine ⟨?_, ?_, ?_⟩
        · intro r hr
          rcases List.mem_cons.mp hr with heq | htail
          · exact absurd (congrArg Prod.fst heq).symm hx
          · exact ih1 r htail
        · intro hmem
          rcases List.mem_append.mp hmem with hl | hr2
          · revert hl
            split
            · intro hl
              simp at hl
              exact hx hl.symm
            · intro hl
              simp at hl
          · exact ih2 hr2
        · exact ih3

/-- C6: when `force_refresh` is false and a source's cache read yields a
non-empty unexpired entry, every submitted unit for that source returns
exactly the cached items, the source's handler is never invoked, and the
source's cache partition is unchanged by the whole fetch. -/
theorem C6_cache_hit_no_handler_no_write (hs : Handlers) (t : Table) (now : Nat)
    (sources : Option (List SourceType)) (tags : Option (List String))
    (s : SourceType) (cs : List NewsItem)
    (hget : CacheManager.get t now s = some cs) :
    (∀ r, (s, r) ∈ fetchResults hs t now sources tags false → r = Except.ok cs) ∧
      s ∉ (NewsFetcher.fetch hs t now sources tags false).2.2 ∧
      rowsFor (NewsFetcher.fetch hs t now sources tags false).2.1 s
        = rowsFor t s := by
  have key := runSources_cacheHit hs (resolveTargets hs sources) now tags s cs t t
    rfl hget
  exact ⟨fun r hr => key.1 r hr, key.2.1, key.2.2⟩

/-- Witness for C6: with a cached github item, the fetch invokes no handler
for github, leaves github's partition untouched, and the github unit's
outcome is the cached list. -/
theorem C6_cache_hit_no_handler_no_write_witness :
    ((.github : SourceType) ∉ (NewsFetcher.fetch hsGh tGh 10 none none false).2.2) ∧
      rowsFor (NewsFetcher.fetch hsGh tGh 10 none none false).2.1 .github
        = rowsFor tGh .github :=
  have key := C6_cache_hit_no_handler_no_write hsGh tGh 10 none none .github [exGh]
    (by decide)
  ⟨key.2.1, key.2.2⟩

/-! ### `put_item` upsert lemmas -/

theorem skOf_inj {a b : NewsItem} (h : skOf a = skOf b) : a.id = b.id :=
  str_append_cancel h

theorem isPrefixOf_self_append {α : Type} [BEq α] [LawfulBEq α] (l m : List α) :
    l.isPrefixOf (l ++ m) = true := by
  induction l with
  | nil => simp [List.isPrefixOf]
  | cons a l ih => simp [List.isPrefixOf, ih]

theorem isItemRow_of_wf (r : CacheRow) (h : r.sk = skOf r.item) :
    isItemRow r = true := by
  unfold isItemRow
  rw [h]
  unfold skOf
  rw [String.data_append]
  exact isPrefixOf_self_append _ _

theorem putItem_mem_self (t : Table) (r : CacheRow) : r ∈ putItem t r := by
  unfold putItem
  split
  · rename_i hany
    obtain ⟨x, hx, hpx⟩ := List.any_eq_true.mp hany
    refine List.mem_map.mpr ⟨x, hx, ?_⟩
    rw [if_pos hpx]
  · exact List.mem_append.mpr (Or.inr (by simp))

theorem putItem_mem_of_ne (t : Table) (r x : CacheRow) (hx : x ∈ t)
    (hne : ¬(x.pk = r.pk ∧ x.sk = r.sk)) : x ∈ putItem t r := by
  have hb : (x.pk == r.pk && x.sk == r.sk) = false := by
    by_cases h1 : x.pk = r.pk
    · by_cases h2 : x.sk = r.sk
      · exact absurd ⟨h1, h2⟩ hne
      · simp [h2]
    · simp [h1]
  unfold putItem
  split
  · refine List.mem_map.mpr ⟨x, hx, ?_⟩
    rw [if_neg (by simp [hb])]
  · exact List.mem_append.mpr (Or.inl hx)

theorem mem_putItem_sub (t : Table) (r x : CacheRow) (hx : x ∈ putItem t r) :
    x = r ∨ x ∈ t := by
  unfold putItem at hx
  split at hx
  · obtain ⟨y, hy, hyx⟩ := List.mem_map.mp hx
    by_cases hc : (y.pk == r.pk && y.sk == r.sk) = true
    · rw [if_pos hc] at hyx
      exact Or.inl hyx.symm
    · rw [if_neg hc] at hyx
      exact Or.inr (hyx ▸ hy)
  · rcases List.mem_append.mp hx with h | h
    · exact Or.inr h
    · simp at h
      exact Or.inl h

theorem putItem_key_unique (t : Table) (r x : CacheRow) (hx : x ∈ putItem t r)
    (hpk : x.pk = r.pk) (hsk : x.sk = r.sk) : x = r := by
  unfold putItem at hx
  split at hx
  · obtain ⟨y, hy, hyx⟩ := List.mem_map.mp hx
    by_cases hc : (y.pk == r.pk && y.sk == r.sk) = true
    · rw [if_pos hc] at hyx
      exact hyx.symm
    · rw [if_neg hc] at hyx
      exfalso
      apply hc
      subst hyx
      rw [Bool.and_eq_true]
      exact ⟨beq_iff_eq.mpr hpk, beq_iff_eq.mpr hsk⟩
  · rename_i hany
    rcases List.mem_append.mp hx with h | h
    · exfalso
      apply hany
      exact List.any_eq_true.mpr
        ⟨x, h, by rw [Bool.and_eq_true]; exact ⟨beq_iff_eq.mpr hpk, beq_iff_eq.mpr hsk⟩⟩
    · simp at h
      exact h

theorem putItem_wf (t : Table) (r : CacheRow) (hwf : TableWF t)
    (hr : r.sk = skOf r.item) : TableWF (putItem t r) := by
  intro x hx
  rcases mem_putItem_sub t r x hx with rfl | hxt
  · exact hr
  · exact hwf x hxt

theorem foldPut_wf (pkn : String) (tn : Nat) (l : List NewsItem) :
    ∀ t : Table, TableWF t →
      TableWF (l.foldl (fun acc z => putItem acc ⟨pkn, skOf z, z, tn⟩) t) := by
  induction l with
  | nil => intro t h; exact h
  | cons z l ih =>
    intro t h
    rw [List.foldl_cons]
    exact ih _ (putItem_wf t _ h rfl)

theorem set_wf (t : Table) (now : Nat) (s : SourceType) (items : List NewsItem)
    (hwf : TableWF t) : TableWF (CacheManager.set t now s items) := by
  unfold CacheManager.set
  exact foldPut_wf _ _ _ t hwf

theorem foldPut_preserve (pkn : String) (tn : Nat) (it : NewsItem) :
    ∀ (l : List NewsItem) (t : Table), (∀ z ∈ l, z.id ≠ it.id) →
      (⟨pkn, skOf it, it, tn⟩ : CacheRow) ∈ t →
      (⟨pkn, skOf it, it, tn⟩ : CacheRow)
        ∈ l.foldl (fun acc z => putItem acc ⟨pkn, skOf z, z, tn⟩) t := by
  intro l
  induction l with
  | nil => intro t _ h; exact h
  | cons z l ih =>
    intro t hl h
    rw [List.foldl_cons]
    refine ih _ (fun w hw => hl w (by simp [hw])) (putItem_mem_of_ne _ _ _ h ?_)
    intro hc
    exact hl z (by simp) (skOf_inj hc.2).symm

theorem foldPut_mem (pkn : String) (tn : Nat) (it : NewsItem) :
    ∀ (l : List NewsItem) (t : Table), it ∈ l → (l.map (fun x => x.id)).Nodup →
      (⟨pkn, skOf it, it, tn⟩ : CacheRow)
        ∈ l.foldl (fun acc z => putItem acc ⟨pkn, skOf z, z, tn⟩) t := by
  intro l
  induction l with
  | nil => intro t h _; cases h
  | cons z l ih =>
    intro t hmem hnd
    rw [List.map_cons, List.nodup_cons] at hnd
    rw [List.foldl_cons]
    rcases List.mem_cons.mp hmem with rfl | htail
    · refine foldPut_preserve pkn tn it l _ ?_ (putItem_mem_self t _)
      exact fun w hw heq => hnd.1 (List.mem_map.mpr ⟨w, hw, heq⟩)
    · exact ih _ htail hnd.2

theorem foldPut_unique_inv (pkn : String) (tn : Nat) (it : NewsItem) :
    ∀ (l : List NewsItem) (t : Table), (∀ z ∈ l, z.id ≠ it.id) →
      (∀ x ∈ t, x.pk = pkn → x.sk = skOf it → x = ⟨pkn, skOf it, it, tn⟩) →
      ∀ x ∈ l.foldl (fun acc z => putItem acc ⟨pkn, skOf z, z, tn⟩) t,
        x.pk = pkn → x.sk = skOf it → x = ⟨pkn, skOf it, it, tn⟩ := by
  intro l
  induction l with
  | nil => intro t _ hP; exact hP
  | cons z l ih =>
    intro t hl hP
    rw [List.foldl_cons]
    refine ih _ (fun w hw => hl w (by simp [hw])) ?_
    intro x hx hpk hsk
    rcases mem_putItem_sub t _ x hx with rfl | hxt
    · exfalso
      exact hl z (by simp) (skOf_inj hsk)
    · exact hP x hxt hpk hsk

theorem foldPut_unique (pkn : String) (tn : Nat) (it : NewsItem) :
    ∀ (l : List NewsItem) (t : Table), it ∈ l → (l.map (fun x => x.id)).Nodup →
      ∀ x ∈ l.foldl (fun acc z => putItem acc ⟨pkn, skOf z, z, tn⟩) t,
        x.pk = pkn → x.sk = skOf it → x = ⟨pkn, skOf it, it, tn⟩ := by
  intro l
  induction l with
  | nil => intro t h; cases h
  | cons z l ih =>
    intro t hmem hnd
    rw [List.map_cons, List.nodup_cons] at hnd
    rw [List.foldl_cons]
    rcases List.mem_cons.mp hmem with rfl | htail
    · refine foldPut_unique_inv pkn tn it l _ ?_ ?_
      · exact fun w hw heq => hnd.1 (List.mem_map.mpr ⟨w, hw, heq⟩)
      · intro x hx hpk hsk
        exact putItem_key_unique t _ x hx hpk hsk
    · exact ih _ htail hnd.2

/-- C5: an item stored by `set` at time `t0` is returned unchanged by every
`get` strictly before `t0 + CACHE_TTL_SECONDS` and is never returned by a
`get` at or after that time (expired rows are treated as absent even though
still stored).  Hypotheses: the prior table satisfies the writer's SK
invariant, the item is among the first `MAX_ITEMS_PER_SOURCE` (the ones
actually stored), and the stored items carry distinct ids. -/
theorem C5_cache_ttl_roundtrip (t : Table) (t0 : Nat) (s : SourceType)
    (items : List NewsItem) (it : NewsItem)
    (hwf : TableWF t)
    (hmem : it ∈ items.take MAX_ITEMS_PER_SOURCE)
    (hnodup : ((items.take MAX_ITEMS_PER_SOURCE).map (fun x => x.id)).Nodup) :
    (∀ t1, t1 < t0 + CACHE_TTL_SECONDS →
      ∃ l, CacheManager.get (CacheManager.set t t0 s items) t1 s = some l ∧ it ∈ l) ∧
      (∀ t1, t0 + CACHE_TTL_SECONDS ≤ t1 →
        ∀ l, CacheManager.get (CacheManager.set t t0 s items) t1 s = some l →
          it ∉ l) := by
  have hour : (⟨pkOf s, skOf it, it, t0 + CACHE_TTL_SECONDS⟩ : CacheRow)
      ∈ CacheManager.set t t0 s items := by
    unfold CacheManager.set
    exact foldPut_mem _ _ it _ t hmem hnodup
  have hwf' : TableWF (CacheManager.set t t0 s items) := set_wf t t0 s items hwf
  constructor
  · intro t1 ht1
    have hfil : (⟨pkOf s, skOf it, it, t0 + CACHE_TTL_SECONDS⟩ : CacheRow)
        ∈ (CacheManager.set t t0 s items).filter
            (fun r => r.pk == pkOf s && isItemRow r) := by
      rw [List.mem_filter]
      refine ⟨hour, ?_⟩
      rw [Bool.and_eq_true]
      exact ⟨beq_iff_eq.mpr rfl, isItemRow_of_wf _ rfl⟩
    have hvalid : it ∈ (((CacheManager.set t t0 s items).filter
        (fun r => r.pk == pkOf s && isItemRow r)).filter
          (fun r => t1 < r.ttl)).map (fun r => r.item) := by
      refine List.mem_map.mpr ⟨_, List.mem_filter.mpr ⟨hfil, ?_⟩, rfl⟩
      exact decide_eq_true ht1
    have hne1 : ¬(((CacheManager.set t t0 s items).filter
        (fun r => r.pk == pkOf s && isItemRow r)).isEmpty = true) := by
      intro hemp
      rw [List.isEmpty_iff] at hemp
      rw [hemp] at hfil
      cases hfil
    have hne2 : ¬((((CacheManager.set t t0 s items).filter
        (fun r => r.pk == pkOf s && isItemRow r)).filter
          (fun r => t1 < r.ttl)).map (fun r => r.item)).isEmpty = true := by
      intro hemp
      rw [List.isEmpty_iff] at hemp
      rw [hemp] at hvalid
      cases hvalid
    refine ⟨_, ?_, hvalid⟩
    unfold CacheManager.get
    dsimp only
    rw [if_neg hne1, if_neg hne2]
  · intro t1 ht1 l hget hitl
    unfold CacheManager.get at hget
    dsimp only at hget
    split at hget
    · exact absurd hget (by simp)
    · split at hget
      · exact absurd hget (by simp)
      · injection hget with hl
        subst hl
        obtain ⟨r', hr', hr'item⟩ := List.mem_map.mp hitl
        obtain ⟨hr'outer, hr'ttl⟩ := List.mem_filter.mp hr'
        obtain ⟨hr'mem, hr'pk⟩ := List.mem_filter.mp hr'outer
        have hpkeq : r'.pk = pkOf s := by
          rw [Bool.and_eq_true] at hr'pk
          exact beq_iff_eq.mp hr'pk.1
        have hsk : r'.sk = skOf it := by
          rw [hwf' r' hr'mem, hr'item]
        have hr'fold : r' ∈ (items.take MAX_ITEMS_PER_SOURCE).foldl
            (fun acc z => putItem acc
              ⟨pkOf s, skOf z, z, t0 + CACHE_TTL_SECONDS⟩) t := by
          unfold CacheManager.set at hr'mem
          exact hr'mem
        have huniq := foldPut_unique (pkOf s) (t0 + CACHE_TTL_SECONDS) it
          (items.take MAX_ITEMS_PER_SOURCE) t hmem hnodup r' hr'fold hpkeq hsk
        have httl : t1 < r'.ttl := of_decide_eq_true hr'ttl
        rw [huniq] at httl
        dsimp only at httl
        omega

/-- Witness for C5: a single item written at time 0 is served (unchanged)
at time 3 and no longer served at time 86400. -/
theorem C5_cache_ttl_roundtrip_witness :
    (∃ l, CacheManager.get (CacheManager.set [] 0 .qiita [exA]) 3 .qiita = some l
        ∧ exA ∈ l) ∧
      (∀ l, CacheManager.get (CacheManager.set [] 0 .qiita [exA]) 86400 .qiita
          = some l → exA ∉ l) :=
  have key := C5_cache_ttl_roundtrip [] 0 .qiita [exA] exA
    (fun r hr => absurd hr (List.not_mem_nil r)) (by decide) (by decide)
  ⟨key.1 3 (by decide), key.2 86400 (by decide)⟩
